import Mathlib

/-!
Shallow embedding of the pack archive and restoration engine of
`go-bedrock-api` (`main.go`).  Go strings are modelled as `List Char`
(`GoStr`), the filesystem as finite lists of directory paths and
`path ↦ bytes` file bindings, and JSON byte payloads as an abstract
`Bytes` datatype whose constructors record the parse outcome of the
payload (zip archive, manifest document, addon list, malformed data).
Every operation is translated from the Go source, statement by
statement; errors are explicit `Except`/`Option` results and the
per-entry `continue` statements of the source become skipping steps of
the corresponding folds.
-/

namespace Bedrock

/-- Go strings, modelled as lists of characters. -/
abbrev GoStr := List Char

/-- Coerce a Lean string literal to a `GoStr`. -/
def gs (s : String) : GoStr := s.toList

/-- Whitespace test used by `strings.TrimSpace` (ASCII subset). -/
def isSpaceChar (c : Char) : Bool :=
  c = ' ' || c = '\t' || c = '\n' || c = '\x0b' || c = '\x0c' || c = '\r'

/-- `strings.TrimSpace`. -/
def trimSpace (s : GoStr) : GoStr :=
  ((s.dropWhile isSpaceChar).reverse.dropWhile isSpaceChar).reverse

/-- `strings.ToLower` (ASCII behaviour). -/
def toLowerGo (s : GoStr) : GoStr := s.map Char.toLower

/-- Split a Go string at every occurrence of a separator character
(`strings.Split` with a one-character separator). -/
def splitChar (sep : Char) : GoStr → List GoStr
  | [] => [[]]
  | c :: rest =>
    if c = sep then [] :: splitChar sep rest
    else
      match splitChar sep rest with
      | g :: t => (c :: g) :: t
      | [] => [[c]]

/-- Join components with a separator character (inverse of `splitChar`). -/
def intercalateChar (sep : Char) : List GoStr → GoStr
  | [] => []
  | [x] => x
  | x :: xs => x ++ sep :: intercalateChar sep xs

/-- `strings.SplitN(s, sep, 2)`: split at the first separator only. -/
def splitN2 (sep : Char) (s : GoStr) : List GoStr :=
  match splitChar sep s with
  | [] => [s]
  | [x] => [x]
  | x :: rest => [x, intercalateChar sep rest]

/-- Byte-order comparison of Go strings (used by `os.ReadDir` sorting). -/
def lexLe : GoStr → GoStr → Bool
  | [], _ => true
  | _ :: _, [] => false
  | a :: as_, b :: bs =>
    if a.toNat < b.toNat then true
    else if b.toNat < a.toNat then false
    else lexLe as_ bs

/-- Insert into a lexicographically sorted list of strings. -/
def insertSorted (x : GoStr) : List GoStr → List GoStr
  | [] => [x]
  | y :: ys => if lexLe x y then x :: y :: ys else y :: insertSorted x ys

/-- Sort strings in byte order (as `os.ReadDir` does). -/
def sortStrs (l : List GoStr) : List GoStr := l.foldr insertSorted []

/-- Insert into a list of `(path, flag)` pairs sorted by path. -/
def insertSortedPair (x : GoStr × Bool) : List (GoStr × Bool) → List (GoStr × Bool)
  | [] => [x]
  | y :: ys => if lexLe x.1 y.1 then x :: y :: ys else y :: insertSortedPair x ys

/-- Sort `(path, flag)` pairs by path (order `filepath.Walk` visits them). -/
def sortPairs (l : List (GoStr × Bool)) : List (GoStr × Bool) := l.foldr insertSortedPair []

/-! ## Go path manipulation (`path/filepath`, unix rules) -/

/-- `filepath.Clean`: lexical simplification of a path. -/
def clean (p : GoStr) : GoStr :=
  if p = [] then gs (".")
  else
    let rooted := p.head? = some '/'
    let segs := (splitChar '/' p).filter (fun s => s ≠ [] && s ≠ gs ("."))
    let out := (segs.foldl (fun acc s =>
      if s = gs ("..") then
        match acc with
        | [] => if rooted then [] else [s]
        | a :: rest => if a = gs ("..") then s :: acc else rest
      else s :: acc) []).reverse
    if rooted then '/' :: intercalateChar '/' out
    else if out = [] then gs (".") else intercalateChar '/' out

/-- `filepath.Join`: drop empty elements, join with `/`, then `Clean`. -/
def joinList (elems : List GoStr) : GoStr :=
  let ne := elems.filter (fun e => e ≠ [])
  if ne = [] then [] else clean (intercalateChar '/' ne)

/-- `filepath.Join` with two elements. -/
def join2 (a b : GoStr) : GoStr := joinList [a, b]

/-- `filepath.Join` with three elements. -/
def join3 (a b c : GoStr) : GoStr := joinList [a, b, c]

/-- `filepath.Dir`: everything up to the final separator, cleaned. -/
def dirOf (p : GoStr) : GoStr :=
  clean ((p.reverse.dropWhile (fun c => c ≠ '/')).reverse)

/-- `filepath.Base`: the last element of the path. -/
def baseOf (p : GoStr) : GoStr :=
  if p = [] then gs (".")
  else
    let q := (p.reverse.dropWhile (fun c => c = '/')).reverse
    if q = [] then gs ("/")
    else (q.reverse.takeWhile (fun c => c ≠ '/')).reverse

/-- `filepath.Ext`: the suffix of the final element starting at its last dot. -/
def extOf (p : GoStr) : GoStr :=
  let r := p.reverse.takeWhile (fun c => c ≠ '/')
  if r.contains '.' then ((r.takeWhile (fun c => c ≠ '.')) ++ ['.']).reverse else []

/-- `strings.TrimSuffix`. -/
def trimSuffix (s suf : GoStr) : GoStr :=
  if suf.isSuffixOf s then s.take (s.length - suf.length) else s

/-- `strings.HasSuffix`. -/
def hasSuffixGo (s suf : GoStr) : Bool := suf.isSuffixOf s

/-- `strings.Contains(s, sub)`: does `sub` occur inside `s`? -/
def isInfixGo (sub : GoStr) : GoStr → Bool
  | [] => sub.isPrefixOf []
  | c :: rest => sub.isPrefixOf (c :: rest) || isInfixGo sub rest

example : clean (gs ("/a/b/../c/")) = gs ("/a/c") := by decide
example : clean (gs ("../../etc/passwd")) = gs ("../../etc/passwd") := by decide
example : join2 (gs ("/t")) (gs ("../evil")) = gs ("/evil") := by decide
example : dirOf (gs ("/a/b")) = gs ("/a") := by decide
example : baseOf (gs ("/a/b.mcpack")) = gs ("b.mcpack"):= by decide
example : extOf (gs ("b.mcpack")) = gs (".mcpack") := by decide
example : trimSuffix (gs ("b.mcpack")) (extOf (gs ("b.mcpack"))) = gs ("b") := by decide
example : splitN2 '=' (gs ("level-name=My=World")) = [gs ("level-name"), gs ("My=World")] := by decide

/-! ## Data model: byte payloads, manifests, addon declarations -/

/-- Abstract file contents.  A payload is recorded together with the
outcome of the JSON / zip decoders the Go code may apply to it:
`manifestDoc` is a JSON document that `json.Unmarshal` decodes into a
`Manifest` (a missing `header` yields the zero value, i.e. an empty
UUID), `addonListDoc` decodes into a `[]ActiveAddon`, `zipData` is a
zip archive with its entry list `(name, isDir, contents)`, `text` is
plain text, and `malformed` fails every decoder. -/
inductive Bytes where
  | text (s : GoStr)
  | manifestDoc (uuid : GoStr) (version : List Int)
  | addonListDoc (addons : List (GoStr × List Int))
  | malformed
  | zipData (entries : List (GoStr × Bool × Bytes))

/-- The `header` object of a `manifest.json`. -/
structure ManifestHeader where
  uuid : GoStr
  version : List Int
deriving Repr

/-- A decoded `manifest.json` document. -/
structure Manifest where
  header : ManifestHeader
deriving Repr

/-- One entry of a world `*_packs.json` file: `(pack_id, version)`. -/
abbrev ActiveAddon := GoStr × List Int

/-- `json.Unmarshal(data, &manifest)`: succeeds exactly on manifest
documents. -/
def jsonUnmarshalManifest : Bytes → Option Manifest
  | .manifestDoc u v => some ⟨⟨u, v⟩⟩
  | _ => none

/-- `json.Unmarshal(data, &addons)`: succeeds exactly on addon-list
documents. -/
def jsonUnmarshalAddons : Bytes → Option (List ActiveAddon)
  | .addonListDoc l => some l
  | _ => none

/-- Interpret raw bytes as text (`string(data)` in Go). -/
def bytesAsText : Bytes → GoStr
  | .text s => s
  | _ => []

/-- Error values surfaced by the engine's operations. -/
inductive Err where
  | notFound
  | parseError
  | emptyLevelName
  | levelNameNotFound
  | notAZip
  | manifestEntryNotFound
  | ioError (what : GoStr)
deriving DecidableEq, Repr

/-! ## Filesystem model -/

/-- Zip entry accessors for the `(name, isDir, contents)` triples. -/
def entryName (e : GoStr × Bool × Bytes) : GoStr := e.1

/-- Whether a zip entry is a directory entry. -/
def entryIsDir (e : GoStr × Bool × Bytes) : Bool := e.2.1

/-- The contents of a zip entry. -/
def entryData (e : GoStr × Bool × Bytes) : Bytes := e.2.2

/-- The filesystem: a finite set of directories, a finite map of file
paths to contents, and the counter used to generate temp-dir names.
All paths stored and queried by the program are in the canonical form
produced by `filepath.Join`/`Clean`. -/
structure Fs where
  dirs : List GoStr
  files : List (GoStr × Bytes)
  tmpCounter : Nat

/-- Association-list insert that overwrites an existing binding
(`m[k] = v` on a Go map, and file-content overwrite). -/
def mapInsert {α : Type} (k : GoStr) (v : α) : List (GoStr × α) → List (GoStr × α)
  | [] => [(k, v)]
  | (k2, v2) :: rest => if k2 = k then (k, v) :: rest else (k2, v2) :: mapInsert k v rest

/-- Association-list lookup. -/
def mapLookup {α : Type} (k : GoStr) : List (GoStr × α) → Option α
  | [] => none
  | (k2, v2) :: rest => if k2 = k then some v2 else mapLookup k rest

/-- Contents of the file at `p`, if any. -/
def lookupFile (fs : Fs) (p : GoStr) : Option Bytes := mapLookup p fs.files

/-- `os.ReadFile`: the contents of an existing file, `NotFound` otherwise. -/
def readFile (fs : Fs) (p : GoStr) : Except Err Bytes :=
  match lookupFile fs p with
  | some b => .ok b
  | none => .error .notFound

/-- Unconditional file write (used by creators below). -/
def writeFileRaw (fs : Fs) (p : GoStr) (b : Bytes) : Fs :=
  { fs with files := mapInsert p b fs.files }

/-- `os.OpenFile(p, O_CREATE|..., mode)` followed by a full copy of `b`:
fails when the parent directory is missing or `p` is a directory. -/
def createFile (fs : Fs) (p : GoStr) (b : Bytes) : Option Fs :=
  if fs.dirs.contains (dirOf p) && !fs.dirs.contains p then some (writeFileRaw fs p b)
  else none

/-- Iterated `filepath.Dir`, fuelled by the path length: the path and
all its ancestors. -/
def ancestorsAux : Nat → GoStr → List GoStr
  | 0, p => [p]
  | fuel + 1, p =>
    let d := dirOf p
    if d = p then [p] else p :: ancestorsAux fuel d

/-- A path together with all its ancestors. -/
def selfAndAncestors (p : GoStr) : List GoStr := ancestorsAux p.length p

/-- `os.MkdirAll`: creates `p` and any missing ancestors; fails when
the path or one of its ancestors exists as a regular file. -/
def mkdirAll (fs : Fs) (p : GoStr) : Option Fs :=
  if (selfAndAncestors p).any (fun q => (lookupFile fs q).isSome) then none
  else some { fs with
    dirs := (selfAndAncestors p).foldl
      (fun ds q => if ds.contains q then ds else ds ++ [q]) fs.dirs }

/-- `os.MkdirTemp("", pattern)`: a fresh directory under `/tmp`. -/
def mkdirTemp (fs : Fs) (pattern : GoStr) : GoStr × Fs :=
  let p := gs ("/tmp/") ++ pattern ++ gs (toString fs.tmpCounter)
  (p, { fs with
        dirs := if fs.dirs.contains p then fs.dirs else fs.dirs ++ [p],
        tmpCounter := fs.tmpCounter + 1 })

/-- Is `q` equal to `root` or strictly below it? -/
def underOrEq (root q : GoStr) : Bool := q == root || (root ++ gs ("/")).isPrefixOf q

/-- `os.RemoveAll`: delete a path and everything below it. -/
def removeAll (fs : Fs) (p : GoStr) : Fs :=
  { fs with
    dirs := fs.dirs.filter (fun q => !underOrEq p q),
    files := fs.files.filter (fun kv => !underOrEq p kv.1) }

/-- A directory entry as returned by `os.ReadDir`. -/
structure DirEnt where
  name : GoStr
  isDir : Bool
deriving Repr

/-- The name of `q` as an immediate child of directory `d`, if it is one. -/
def childNameOf (d q : GoStr) : Option GoStr :=
  if dirOf q = d ∧ q ≠ d then some (baseOf q) else none

/-- `os.ReadDir`: the immediate children of a directory, sorted by
name; `NotFound` when the directory does not exist. -/
def readDir (fs : Fs) (d : GoStr) : Except Err (List DirEnt) :=
  if fs.dirs.contains d then
    let dnames := fs.dirs.filterMap (childNameOf d)
    let fnames := fs.files.filterMap (fun kv => childNameOf d kv.1)
    let names := sortStrs (dnames ++ fnames).dedup
    .ok (names.map (fun n => ⟨n, fs.dirs.contains (join2 d n)⟩))
  else .error .notFound

/-- `os.Stat` success test: the path exists as a directory or file. -/
def statExists (fs : Fs) (p : GoStr) : Bool :=
  fs.dirs.contains p || (lookupFile fs p).isSome

/-- All paths at or below `root` with their directory flag, in the
order `filepath.Walk` visits them (parents before children). -/
def walkAll (fs : Fs) (root : GoStr) : List (GoStr × Bool) :=
  let ds := (fs.dirs.filter (underOrEq root)).map (fun q => (q, true))
  let fls := (fs.files.filter (fun kv => underOrEq root kv.1)).map (fun kv => (kv.1, false))
  sortPairs (ds ++ fls)

/-! ## Program constants (`main.go` const block) -/

/-- `/data/behavior_packs`. -/
def behaviorPacksDir : GoStr := gs ("/data/behavior_packs")

/-- `/data/resource_packs`. -/
def resourcePacksDir : GoStr := gs ("/data/resource_packs")

/-- `/data/server.properties`. -/
def serverPropsPath : GoStr := gs ("/data/server.properties")

/-- `/data/pack_archives/behavior`. -/
def behaviorPackArchiveDir : GoStr := gs ("/data/pack_archives/behavior")

/-- `/data/pack_archives/resource`. -/
def resourcePackArchiveDir : GoStr := gs ("/data/pack_archives/resource")

/-! ## `getWorldFolder` -/

/-- The line scan of `getWorldFolder`: skip blank lines and comments,
return on the first `level-name=` line. -/
def levelNameFromLines : List GoStr → Except Err GoStr
  | [] => .error .levelNameNotFound
  | line :: rest =>
    let l := trimSpace line
    if l = [] || (gs ("#")).isPrefixOf l then levelNameFromLines rest
    else if (gs ("level-name=")).isPrefixOf l then
      match splitN2 '=' l with
      | [_, v] =>
        let levelName := trimSpace v
        if levelName = [] then .error .emptyLevelName
        else .ok (join2 (gs ("/data/worlds")) levelName)
      | _ => levelNameFromLines rest
    else levelNameFromLines rest

/-- `getWorldFolder`: read `server.properties` and resolve the world
folder from its `level-name` entry. -/
def getWorldFolder (fs : Fs) : Except Err GoStr :=
  match readFile fs serverPropsPath with
  | .error e => .error e
  | .ok data => levelNameFromLines (splitChar '\n' (bytesAsText data))

/-! ## `getManifestUUID` and `findPackByUUID` -/

/-- `getManifestUUID`: read and decode a loose `manifest.json`. -/
def getManifestUUID (fs : Fs) (manifestPath : GoStr) : Except Err GoStr :=
  match readFile fs manifestPath with
  | .error e => .error e
  | .ok data =>
    match jsonUnmarshalManifest data with
    | none => .error .parseError
    | some m => .ok m.header.uuid

/-- The directory loop of `findPackByUUID`. -/
def findPackLoop (fs : Fs) (searchDir uuid : GoStr) : List DirEnt → GoStr
  | [] => []
  | ent :: rest =>
    if ent.isDir then
      match getManifestUUID fs (join3 searchDir ent.name (gs ("manifest.json"))) with
      | .error _ => findPackLoop fs searchDir uuid rest
      | .ok foundUUID =>
        if foundUUID = uuid then join2 searchDir ent.name
        else findPackLoop fs searchDir uuid rest
    else findPackLoop fs searchDir uuid rest

/-- `findPackByUUID`: search the immediate subdirectories of
`searchDir` for one whose manifest carries `uuid`.  A missing search
directory yields `("", nil)`. -/
def findPackByUUID (fs : Fs) (searchDir uuid : GoStr) : Except Err GoStr :=
  match readDir fs searchDir with
  | .error e => if e = .notFound then .ok [] else .error e
  | .ok entries => .ok (findPackLoop fs searchDir uuid entries)

/-- The `err == nil && existingPath != ""` guard of
`restorePackFromArchive`. -/
def packAlreadyInstalled (fs : Fs) (destinationDir uuid : GoStr) : Bool :=
  match findPackByUUID fs destinationDir uuid with
  | .ok p => !p.isEmpty
  | .error _ => false

/-! ## Archive extraction (`extractMcpackToDir` and the composite
extraction loop of `uploadMcAddonHandler`, which are textually the
same per-entry logic) -/

/-- One iteration of the extraction loop.  The accumulator carries the
filesystem and the list of entry paths actually materialised; an entry
whose joined path escapes the target (the zip-slip guard) or whose I/O
fails is skipped (`continue`). -/
def extractEntryStep (targetDir : GoStr) (acc : Fs × List GoStr)
    (e : GoStr × Bool × Bytes) : Fs × List GoStr :=
  let fs := acc.1
  let w := acc.2
  let fpath := join2 targetDir (entryName e)
  if (clean targetDir ++ gs ("/")).isPrefixOf fpath then
    if entryIsDir e then
      match mkdirAll fs fpath with
      | some fs2 => (fs2, w ++ [fpath])
      | none => (fs, w)
    else
      match mkdirAll fs (dirOf fpath) with
      | none => (fs, w)
      | some fs2 =>
        match createFile fs2 fpath (entryData e) with
        | some fs3 => (fs3, w ++ [fpath])
        | none => (fs2, w)
  else (fs, w)

/-- The whole extraction loop over a zip's entries. -/
def extractEntries (fs : Fs) (targetDir : GoStr)
    (entries : List (GoStr × Bool × Bytes)) : Fs × List GoStr :=
  entries.foldl (extractEntryStep targetDir) (fs, [])

/-- `extractMcpackToDir`: open a pack archive and extract every entry
into `targetDir`; only a failure to open the archive is an error. -/
def extractMcpackToDir (fs : Fs) (mcpackPath targetDir : GoStr) : Fs × Except Err Unit :=
  match readFile fs mcpackPath with
  | .error e => (fs, .error e)
  | .ok (.zipData entries) => ((extractEntries fs targetDir entries).1, .ok ())
  | .ok _ => (fs, .error .notAZip)

/-! ## `extractPackUUIDFromMcpack` -/

/-- The entry scan of `extractPackUUIDFromMcpack`: an entry named
`manifest.json` whose payload fails to decode is skipped and the scan
continues. -/
def uuidFromZipEntries : List (GoStr × Bool × Bytes) → Except Err GoStr
  | [] => .error .manifestEntryNotFound
  | e :: rest =>
    if entryName e = gs ("manifest.json") then
      match jsonUnmarshalManifest (entryData e) with
      | some m => .ok m.header.uuid
      | none => uuidFromZipEntries rest
    else uuidFromZipEntries rest

/-- `extractPackUUIDFromMcpack`: read the UUID out of the
`manifest.json` entry of a pack archive. -/
def extractPackUUIDFromMcpack (fs : Fs) (mcpackPath : GoStr) : Except Err GoStr :=
  match readFile fs mcpackPath with
  | .error e => .error e
  | .ok (.zipData entries) => uuidFromZipEntries entries
  | .ok _ => .error .notAZip

/-! ## `saveMcpackToArchive` -/

/-- The UUID `saveMcpackToArchive` keys a pack by: the manifest UUID,
falling back to the archive's base filename when it cannot be read. -/
def saveUUID (fs : Fs) (mcpackPath : GoStr) : GoStr :=
  match extractPackUUIDFromMcpack fs mcpackPath with
  | .ok u => u
  | .error _ => baseOf mcpackPath

/-- The kind-specific archive root used by `saveMcpackToArchive`. -/
def saveArchiveRoot (packType : GoStr) : GoStr :=
  if packType = gs ("behavior") then behaviorPackArchiveDir else resourcePackArchiveDir

/-- The per-pack archive subdirectory `saveMcpackToArchive` stores
into: the archive root joined with the extension-trimmed UUID. -/
def savePackDir (fs : Fs) (mcpackPath packType : GoStr) : GoStr :=
  join2 (saveArchiveRoot packType)
    (trimSuffix (saveUUID fs mcpackPath) (extOf (saveUUID fs mcpackPath)))

/-- The stored file path of `saveMcpackToArchive`: the pack
subdirectory joined with the source file's base name. -/
def saveArchivePath (fs : Fs) (mcpackPath packType : GoStr) : GoStr :=
  join2 (savePackDir fs mcpackPath packType) (baseOf mcpackPath)

/-- `saveMcpackToArchive`: key the pack by its manifest UUID (falling
back to the base filename), create the per-pack archive subdirectory,
and copy the archive file into it.  Returns `(archivePath, packDir)`. -/
def saveMcpackToArchive (fs : Fs) (mcpackPath packType : GoStr) :
    Fs × Except Err (GoStr × GoStr) :=
  match mkdirAll fs (savePackDir fs mcpackPath packType) with
  | none => (fs, .error (.ioError (gs ("mkdir"))))
  | some fs1 =>
    match readFile fs1 mcpackPath with
    | .error e => (fs1, .error e)
    | .ok b =>
      match createFile fs1 (saveArchivePath fs mcpackPath packType) b with
      | none => (fs1, .error (.ioError (gs ("create"))))
      | some fs2 =>
        (fs2, .ok (saveArchivePath fs mcpackPath packType, savePackDir fs mcpackPath packType))

/-! ## `copyDir` -/

/-- `filepath.Rel(src, q)` for paths visited by a walk of `src`. -/
def relPath (src q : GoStr) : GoStr :=
  if q == src then gs (".") else q.drop (src.length + 1)

/-- One step of the `filepath.Walk` callback of `copyDir`: a failure
aborts the remaining walk (the callback returns the error). -/
def copyDirStep (src dst : GoStr) (acc : Fs × Option Err) (item : GoStr × Bool) :
    Fs × Option Err :=
  match acc with
  | (fs, some e) => (fs, some e)
  | (fs, none) =>
    let dstPath := join2 dst (relPath src item.1)
    if item.2 then
      match mkdirAll fs dstPath with
      | some fs2 => (fs2, none)
      | none => (fs, some (.ioError (gs ("mkdir"))))
    else
      match lookupFile fs item.1 with
      | none => (fs, some .notFound)
      | some b =>
        match createFile fs dstPath b with
        | some fs2 => (fs2, none)
        | none => (fs, some (.ioError (gs ("open"))))

/-- `copyDir`: recursively copy the tree at `src` into `dst`. -/
def copyDir (fs : Fs) (src dst : GoStr) : Fs × Option Err :=
  if fs.dirs.contains src || (lookupFile fs src).isSome then
    (walkAll fs src).foldl (copyDirStep src dst) (fs, none)
  else (fs, some .notFound)

/-! ## Restoration reconciler -/

/-- The stored-file loop of `restorePackFromArchive`: find the first
zip/mcpack file in the archive subdirectory whose pack is missing from
the destination, and restore it through a scratch directory. -/
def restoreLoop (fs : Fs) (archivePackDir destinationDir : GoStr) :
    List DirEnt → Fs × Option Err
  | [] => (fs, none)
  | ent :: rest =>
    if ent.isDir then restoreLoop fs archivePackDir destinationDir rest
    else
      let filename := ent.name
      if !(hasSuffixGo (toLowerGo filename) (gs (".mcpack")) ||
           hasSuffixGo (toLowerGo filename) (gs (".zip"))) then
        restoreLoop fs archivePackDir destinationDir rest
      else
        let mcpackPath := join2 archivePackDir filename
        match extractPackUUIDFromMcpack fs mcpackPath with
        | .error _ => restoreLoop fs archivePackDir destinationDir rest
        | .ok uuid =>
          if packAlreadyInstalled fs destinationDir uuid then
            restoreLoop fs archivePackDir destinationDir rest
          else
            let tf := mkdirTemp fs (gs ("restore-pack"))
            let tmpDir := tf.1
            match extractMcpackToDir tf.2 mcpackPath tmpDir with
            | (fs2, .error _) => (removeAll fs2 tmpDir, some (.ioError (gs ("extract"))))
            | (fs2, .ok _) =>
              match copyDir fs2 tmpDir destinationDir with
              | (fs3, some _) => (removeAll fs3 tmpDir, some (.ioError (gs ("copy"))))
              | (fs3, none) => (removeAll fs3 tmpDir, none)

/-- `restorePackFromArchive`: restore the pack stored in one archive
subdirectory if its UUID is not installed in `destinationDir`. -/
def restorePackFromArchive (fs : Fs) (archivePackDir destinationDir : GoStr) :
    Fs × Option Err :=
  match readDir fs archivePackDir with
  | .error e => (fs, some e)
  | .ok entries => restoreLoop fs archivePackDir destinationDir entries

/-- One kind's loop of `restoreDeletedPacks`: per-pack failures are
logged and skipped. -/
def restoreKind (fs : Fs) (archiveRoot packsDir : GoStr) : Fs :=
  match readDir fs archiveRoot with
  | .error _ => fs
  | .ok entries =>
    entries.foldl (fun fs2 ent =>
      if ent.isDir then (restorePackFromArchive fs2 (join2 archiveRoot ent.name) packsDir).1
      else fs2) fs

/-- `restoreDeletedPacks`: reconcile both pack kinds at startup. -/
def restoreDeletedPacks (fs : Fs) : Fs :=
  restoreKind (restoreKind fs behaviorPackArchiveDir behaviorPacksDir)
    resourcePackArchiveDir resourcePacksDir

/-! ## Installed-pack index and active addons -/

/-- The loop body of `getInstalledAddons`: skip non-directories and
subdirectories whose `manifest.json` is missing or unparseable,
otherwise insert (overwriting) the UUID ↦ path binding. -/
def installedStep (fs : Fs) (packDir : GoStr) (m : List (GoStr × GoStr)) (ent : DirEnt) :
    List (GoStr × GoStr) :=
  if ent.isDir then
    match readFile fs (join3 packDir ent.name (gs ("manifest.json"))) with
    | .error _ => m
    | .ok data =>
      match jsonUnmarshalManifest data with
      | none => m
      | some manifest => mapInsert manifest.header.uuid (join2 packDir ent.name) m
  else m

/-- `getInstalledAddons`: scan the immediate subdirectories of
`packDir` and map each readable, parseable manifest UUID to the
subdirectory path; later duplicates overwrite earlier ones. -/
def getInstalledAddons (fs : Fs) (packDir : GoStr) :
    Except Err (List (GoStr × GoStr)) :=
  match readDir fs packDir with
  | .error e => .error e
  | .ok entries => .ok (entries.foldl (installedStep fs packDir) [])

/-- `getActiveAddons`: keep the declared addons whose `pack_id` is an
installed UUID. -/
def getActiveAddons (fs : Fs) (jsonPath packDir : GoStr) : Except Err (List ActiveAddon) :=
  match readFile fs jsonPath with
  | .error e => .error e
  | .ok data =>
    match jsonUnmarshalAddons data with
    | none => .error .parseError
    | some addons =>
      match getInstalledAddons fs packDir with
      | .error e => .error e
      | .ok installed =>
        .ok (addons.foldl (fun acc addon =>
          if (mapLookup addon.1 installed).isSome then acc ++ [addon] else acc) [])

/-- The behaviour-pack declaration file selection of
`activeAddonsHandler`: American spelling first, then British, else
`NotFound`. -/
def chooseBehaviorJSON (fs : Fs) (worldFolder : GoStr) : Except Err GoStr :=
  let behaviorJSON1 := join2 worldFolder (gs ("world_behavior_packs.json"))
  let behaviorJSON2 := join2 worldFolder (gs ("world_behaviour_packs.json"))
  if statExists fs behaviorJSON1 then .ok behaviorJSON1
  else if statExists fs behaviorJSON2 then .ok behaviorJSON2
  else .error .notFound

/-! ## Upload ingestion pipeline -/

/-- The per-pack classification inside the walk of
`uploadMcAddonHandler`: the loop breaks at the first `manifest.json`
entry, and only a decodable manifest together with `"resource"`
occurring in the containing path yields a resource classification. -/
def scanManifestResource (path : GoStr) : List (GoStr × Bool × Bytes) → Bool
  | [] => false
  | e :: rest =>
    if entryName e = gs ("manifest.json") then
      match jsonUnmarshalManifest (entryData e) with
      | some _ => isInfixGo (gs ("resource")) path
      | none => false
    else scanManifestResource path rest

/-- Classify one nested pack file: `none` when it does not open as a
zip (the walk skips it), otherwise `some isResource`. -/
def classifyNestedPack (fs : Fs) (path : GoStr) : Option Bool :=
  match lookupFile fs path with
  | some (.zipData entries) => some (scanManifestResource path entries)
  | _ => none

/-- The walk of the extracted composite: collect nested pack files
(suffix `.mcpack`/`.zip`, case-insensitive) into behavior and resource
lists. -/
def collectNestedPacks (fs : Fs) (root : GoStr) : List GoStr × List GoStr :=
  let fileList := ((walkAll fs root).filter (fun it => !it.2)).map (fun it => it.1)
  fileList.foldl (fun acc path =>
    let lower := toLowerGo path
    if !(hasSuffixGo lower (gs (".mcpack")) || hasSuffixGo lower (gs (".zip"))) then acc
    else
      match classifyNestedPack fs path with
      | none => acc
      | some true => (acc.1, acc.2 ++ [path])
      | some false => (acc.1 ++ [path], acc.2)) ([], [])

/-- Archive, extract and install one nested pack; every failure is
logged and leaves the remaining packs unaffected. -/
def processOnePack (packType destDir pattern : GoStr) (fs : Fs) (mcpackPath : GoStr) : Fs :=
  match saveMcpackToArchive fs mcpackPath packType with
  | (fs1, .error _) => fs1
  | (fs1, .ok _) =>
    let tf := mkdirTemp fs1 pattern
    let tmpDir := tf.1
    match extractMcpackToDir tf.2 mcpackPath tmpDir with
    | (fs3, .error _) => removeAll fs3 tmpDir
    | (fs3, .ok _) =>
      let cp := copyDir fs3 tmpDir destDir
      removeAll cp.1 tmpDir

/-- The success message of `uploadMcAddonHandler`. -/
def uploadSuccessMsg : GoStr := gs ("mcaddon processed and installed successfully")

/-- `uploadMcAddonHandler` from the point the upload bytes are on
disk: open the composite zip, extract it into a scratch directory,
collect and classify the nested packs, process each one best-effort,
and report success whenever the composite opened. -/
def uploadMcAddonHandler (fs : Fs) (upload : Bytes) : Fs × Except Err GoStr :=
  match upload with
  | .zipData entries =>
    let ed := mkdirTemp fs (gs ("mcaddon-extract"))
    let extractDir := ed.1
    let fs2 := (extractEntries ed.2 extractDir entries).1
    let packs := collectNestedPacks fs2 extractDir
    let fs3 := packs.1.foldl
      (processOnePack (gs ("behavior")) behaviorPacksDir (gs ("extract-bp"))) fs2
    let fs4 := packs.2.foldl
      (processOnePack (gs ("resource")) resourcePacksDir (gs ("extract-rp"))) fs3
    (removeAll fs4 extractDir, .ok uploadSuccessMsg)
  | _ => (fs, .error .notAZip)

/-! ## Generic association-map lemmas -/

theorem mapLookup_mapInsert_self {α : Type} (k : GoStr) (v : α) (l : List (GoStr × α)) :
    mapLookup k (mapInsert k v l) = some v := by
  induction l with
  | nil => simp [mapInsert, mapLookup]
  | cons kv rest ih =>
    obtain ⟨k2, v2⟩ := kv
    by_cases h : k2 = k
    · simp [mapInsert, mapLookup, h]
    · simp [mapInsert, mapLookup, h, ih]

theorem mapLookup_mapInsert_ne {α : Type} (k k2 : GoStr) (v : α) (l : List (GoStr × α))
    (h : k ≠ k2) : mapLookup k (mapInsert k2 v l) = mapLookup k l := by
  induction l with
  | nil => simp [mapInsert, mapLookup, Ne.symm h]
  | cons kv rest ih =>
    obtain ⟨k3, v3⟩ := kv
    by_cases h3 : k3 = k2
    · subst h3
      simp [mapInsert, mapLookup, Ne.symm h]
    · by_cases h4 : k3 = k
      · simp [mapInsert, mapLookup, h3, h4, h]
      · simp [mapInsert, mapLookup, h3, h4, ih]

theorem mapInsert_of_lookup_eq {α : Type} (k : GoStr) (v : α) (l : List (GoStr × α))
    (h : mapLookup k l = some v) : mapInsert k v l = l := by
  induction l with
  | nil => simp [mapLookup] at h
  | cons kv rest ih =>
    obtain ⟨k2, v2⟩ := kv
    by_cases h2 : k2 = k
    · subst h2
      simp [mapLookup] at h
      simp [mapInsert, h]
    · simp [mapLookup, h2] at h
      simp [mapInsert, h2, ih h]

/-! ## C10: `findPackByUUID` on a missing directory -/

/-- C10: for every UUID `u` and every search directory that does not
exist, `findPackByUUID` returns an empty path with no error, and the
already-installed guard of the Restoration Reconciler is therefore
false, so `restorePackFromArchive` proceeds to the restore branch
instead of failing its lookup. -/
theorem c10_findPackByUUID_missing_dir (fs : Fs) (searchDir uuid : GoStr)
    (h : fs.dirs.contains searchDir = false) :
    findPackByUUID fs searchDir uuid = .ok [] ∧
    packAlreadyInstalled fs searchDir uuid = false := by
  have hrd : readDir fs searchDir = .error .notFound := by
    unfold readDir
    rw [h]
    simp
  constructor
  · simp [findPackByUUID, hrd]
  · simp [packAlreadyInstalled, findPackByUUID, hrd, List.isEmpty]

/-- An empty filesystem used as a witness input. -/
def fsEmpty : Fs := { dirs := [], files := [], tmpCounter := 0 }

/-- Witness for C10 at a concrete wiped filesystem. -/
theorem c10_findPackByUUID_missing_dir_witness :
    findPackByUUID fsEmpty behaviorPacksDir (gs ("U")) = .ok [] ∧
    packAlreadyInstalled fsEmpty behaviorPacksDir (gs ("U")) = false :=
  c10_findPackByUUID_missing_dir fsEmpty behaviorPacksDir (gs ("U")) (by decide)

/-! ## C7: the upload pipeline is best-effort per nested pack -/

/-- C7: a failure while archiving, extracting or installing one nested
pack never aborts the processing of the remaining nested packs (the
per-pack processing is a total fold that continues past every per-pack
outcome), and the top-level result of `uploadMcAddonHandler` reports
success whenever the outer composite archive opened as a zip,
regardless of the contents and outcomes of the individual packs. -/
theorem c7_upload_best_effort :
    (∀ (fs : Fs) (entries : List (GoStr × Bool × Bytes)),
      (uploadMcAddonHandler fs (Bytes.zipData entries)).2 = .ok uploadSuccessMsg) ∧
    (∀ (packType destDir pattern : GoStr) (fs : Fs) (p : GoStr) (rest : List GoStr),
      List.foldl (processOnePack packType destDir pattern) fs (p :: rest) =
      List.foldl (processOnePack packType destDir pattern)
        (processOnePack packType destDir pattern fs p) rest) := by
  constructor
  · intro fs entries
    simp [uploadMcAddonHandler]
  · intro packType destDir pattern fs p rest
    simp [List.foldl_cons]

/-! ## C3: Manifest Reader error taxonomy -/

/-- The UUID of the first `manifest.json` entry that decodes, if any
(the quantity `extractPackUUIDFromMcpack`'s scan actually computes). -/
def firstManifestUUID (entries : List (GoStr × Bool × Bytes)) : Option GoStr :=
  (entries.filterMap (fun e =>
    if entryName e = gs ("manifest.json") then
      (jsonUnmarshalManifest (entryData e)).map (fun m => m.header.uuid)
    else none)).head?

theorem uuidFromZipEntries_eq_firstManifestUUID (entries : List (GoStr × Bool × Bytes)) :
    uuidFromZipEntries entries =
      match firstManifestUUID entries with
      | some u => .ok u
      | none => .error .manifestEntryNotFound := by
  induction entries with
  | nil => simp [uuidFromZipEntries, firstManifestUUID]
  | cons e rest ih =>
    by_cases hname : entryName e = gs ("manifest.json")
    · cases hm : jsonUnmarshalManifest (entryData e) with
      | none => simpa [uuidFromZipEntries, firstManifestUUID, hname, hm] using ih
      | some m => simp [uuidFromZipEntries, firstManifestUUID, hname, hm]
    · simpa [uuidFromZipEntries, firstManifestUUID, hname] using ih

/-- The filesystem of the C3 counterexample: a pack archive whose only
entry is a `manifest.json` that is present but fails to decode. -/
def fsC3 : Fs :=
  { dirs := [gs ("/"), gs ("/a")],
    files := [(gs ("/a/p.mcpack"),
      Bytes.zipData [(gs ("manifest.json"), false, Bytes.malformed)])],
    tmpCounter := 0 }

/-- C3 counterexample: the archived pack contains an entry named
exactly `manifest.json` whose payload cannot be decoded as JSON, yet
`extractPackUUIDFromMcpack` fails with the NotFound-style error
`manifest.json not found in mcpack` rather than a ParseError — the
claim's "fails with a ParseError exactly when the descriptor is
present but cannot be decoded" is false for the zip variant of the
Manifest Reader. -/
theorem c3_counterexample :
    (∃ entries, lookupFile fsC3 (gs ("/a/p.mcpack")) = some (Bytes.zipData entries) ∧
      ∃ e, e ∈ entries ∧ entryName e = gs ("manifest.json") ∧
        jsonUnmarshalManifest (entryData e) = none) ∧
    extractPackUUIDFromMcpack fsC3 (gs ("/a/p.mcpack")) = .error .manifestEntryNotFound ∧
    Err.manifestEntryNotFound ≠ Err.parseError := by
  refine ⟨⟨[(gs ("manifest.json"), false, Bytes.malformed)], rfl, ?_⟩, rfl, by decide⟩
  exact ⟨(gs ("manifest.json"), false, Bytes.malformed), by simp, rfl, rfl⟩

/-- C3 (amended): the loose-file reader `getManifestUUID` fails with
`NotFound` exactly when the file is absent, with a ParseError exactly
when it is present but does not decode, and returns the (possibly
empty) header UUID when it decodes; the zip reader
`extractPackUUIDFromMcpack` instead skips undecodable `manifest.json`
entries, returns the UUID of the first decodable one, and fails with
its NotFound-style error whenever no decodable `manifest.json` entry
exists — including when one is present but undecodable. -/
theorem c3_manifest_reader_amended (fs : Fs) (p : GoStr) :
    (readFile fs p = .error .notFound → getManifestUUID fs p = .error .notFound) ∧
    (∀ b, readFile fs p = .ok b → jsonUnmarshalManifest b = none →
      getManifestUUID fs p = .error .parseError) ∧
    (∀ b m, readFile fs p = .ok b → jsonUnmarshalManifest b = some m →
      getManifestUUID fs p = .ok m.header.uuid) ∧
    (∀ entries, readFile fs p = .ok (Bytes.zipData entries) →
      extractPackUUIDFromMcpack fs p =
        match firstManifestUUID entries with
        | some u => .ok u
        | none => .error .manifestEntryNotFound) := by
  refine ⟨?_, ?_, ?_, ?_⟩
  · intro h
    simp [getManifestUUID, h]
  · intro b hb hm
    simp [getManifestUUID, hb, hm]
  · intro b m hb hm
    simp [getManifestUUID, hb, hm]
  · intro entries hb
    simp [extractPackUUIDFromMcpack, hb, uuidFromZipEntries_eq_firstManifestUUID]

/-- Witness for the amended C3 theorem: a filesystem holding a loose
missing manifest, a malformed loose manifest, a decodable loose
manifest, and the fsC3 zip, exercising all four branches. -/
def fsC3w : Fs :=
  { dirs := [gs ("/"), gs ("/a")],
    files := [(gs ("/a/bad.json"), Bytes.malformed),
              (gs ("/a/good.json"), Bytes.manifestDoc (gs ("U1")) [1, 0]),
              (gs ("/a/p.mcpack"),
                Bytes.zipData [(gs ("manifest.json"), false, Bytes.malformed)])],
    tmpCounter := 0 }

theorem c3_manifest_reader_amended_witness :
    getManifestUUID fsC3w (gs ("/a/absent.json")) = .error .notFound ∧
    getManifestUUID fsC3w (gs ("/a/bad.json")) = .error .parseError ∧
    getManifestUUID fsC3w (gs ("/a/good.json")) = .ok (gs ("U1")) ∧
    extractPackUUIDFromMcpack fsC3w (gs ("/a/p.mcpack")) = .error .manifestEntryNotFound := by
  refine ⟨?_, ?_, ?_, ?_⟩
  · exact (c3_manifest_reader_amended fsC3w (gs ("/a/absent.json"))).1 rfl
  · exact (c3_manifest_reader_amended fsC3w (gs ("/a/bad.json"))).2.1 Bytes.malformed rfl rfl
  · exact (c3_manifest_reader_amended fsC3w (gs ("/a/good.json"))).2.2.1
      (Bytes.manifestDoc (gs ("U1")) [1, 0]) ⟨⟨gs ("U1"), [1, 0]⟩⟩ rfl rfl
  · exact (c3_manifest_reader_amended fsC3w (gs ("/a/p.mcpack"))).2.2.2
      [(gs ("manifest.json"), false, Bytes.malformed)] rfl

/-! ## C6: nested-pack classification -/

/-- The first entry named `manifest.json`, if any (the classification
loop of `uploadMcAddonHandler` breaks at it). -/
def firstManifestEntry (entries : List (GoStr × Bool × Bytes)) :
    Option (GoStr × Bool × Bytes) :=
  entries.find? (fun e => entryName e == gs ("manifest.json"))

/-- Whether a byte payload is a zip archive. -/
def bytesIsZip : Bytes → Bool
  | .zipData _ => true
  | _ => false

theorem scanManifestResource_eq_first (path : GoStr) (entries : List (GoStr × Bool × Bytes)) :
    scanManifestResource path entries =
      match firstManifestEntry entries with
      | some e => (jsonUnmarshalManifest (entryData e)).isSome &&
          isInfixGo (gs ("resource")) path
      | none => false := by
  induction entries with
  | nil => simp [scanManifestResource, firstManifestEntry]
  | cons e rest ih =>
    by_cases hname : entryName e = gs ("manifest.json")
    · have hbeq : (entryName e == gs ("manifest.json")) = true := by simp [hname]
      have hfind : firstManifestEntry (e :: rest) = some e := by
        simp [firstManifestEntry, List.find?_cons_of_pos, hbeq]
      cases hm : jsonUnmarshalManifest (entryData e) with
      | none => simp [scanManifestResource, hname, hm, hfind]
      | some m => simp [scanManifestResource, hname, hm, hfind]
    · have hbeq : (entryName e == gs ("manifest.json")) = false := by simp [hname]
      have hfind : firstManifestEntry (e :: rest) = firstManifestEntry rest := by
        simp [firstManifestEntry, List.find?_cons_of_neg, hbeq]
      rw [scanManifestResource, if_neg hname, hfind] at *
      exact ih

/-- The filesystem of the C6 counterexample: a nested pack file whose
containing path contains the substring `resource` but whose zip has a
`manifest.json` entry that fails to decode. -/
def fsC6 : Fs :=
  { dirs := [gs ("/"), gs ("/tmp"), gs ("/tmp/mcaddon-extract0"),
             gs ("/tmp/mcaddon-extract0/resource")],
    files := [(gs ("/tmp/mcaddon-extract0/resource/a.mcpack"),
      Bytes.zipData [(gs ("manifest.json"), false, Bytes.malformed)])],
    tmpCounter := 1 }

/-- C6 counterexample: a nested pack file (suffix `.mcpack`) whose
containing path contains the substring `resource` is nevertheless
classified as behavior (`some false`), because the classification only
marks a pack as resource when its `manifest.json` entry also decodes —
the claim's "resource if its containing path contains the substring
resource" is false for this input. -/
theorem c6_counterexample :
    hasSuffixGo (toLowerGo (gs ("/tmp/mcaddon-extract0/resource/a.mcpack"))) (gs (".mcpack")) = true ∧
    isInfixGo (gs ("resource")) (gs ("/tmp/mcaddon-extract0/resource/a.mcpack")) = true ∧
    classifyNestedPack fsC6 (gs ("/tmp/mcaddon-extract0/resource/a.mcpack")) = some false ∧
    classifyNestedPack fsC6 (gs ("/tmp/mcaddon-extract0/resource/a.mcpack")) ≠ some true := by
  have hc : classifyNestedPack fsC6 (gs ("/tmp/mcaddon-extract0/resource/a.mcpack")) =
      some false := rfl
  refine ⟨by decide, by decide, hc, ?_⟩
  rw [hc]
  simp

/-- C6 (amended): a nested pack file that opens as a zip is classified
as resource exactly when its first `manifest.json` entry decodes as
JSON and the containing path contains the substring `resource`;
otherwise (no `manifest.json`, or an undecodable one, or no `resource`
in the path) it is classified as behavior; a file that does not open
as a zip archive is skipped entirely and not classified. -/
theorem c6_classification_amended (fs : Fs) (path : GoStr) :
    (∀ entries, lookupFile fs path = some (Bytes.zipData entries) →
      classifyNestedPack fs path =
        some ((firstManifestEntry entries).elim false
            (fun e => (jsonUnmarshalManifest (entryData e)).isSome) &&
          isInfixGo (gs ("resource")) path)) ∧
    (∀ b, lookupFile fs path = some b → bytesIsZip b = false →
      classifyNestedPack fs path = none) ∧
    (lookupFile fs path = none → classifyNestedPack fs path = none) := by
  refine ⟨?_, ?_, ?_⟩
  · intro entries h
    have hcl : classifyNestedPack fs path = some (scanManifestResource path entries) := by
      simp [classifyNestedPack, h]
    rw [hcl, scanManifestResource_eq_first]
    cases hf : firstManifestEntry entries with
    | none => simp [hf]
    | some e => simp [hf]
  · intro b h hz
    cases b <;> simp_all [classifyNestedPack, bytesIsZip]
  · intro h
    simp [classifyNestedPack, h]

theorem c6_classification_amended_witness :
    classifyNestedPack fsC6 (gs ("/tmp/mcaddon-extract0/resource/a.mcpack")) = some false := by
  have h := (c6_classification_amended fsC6
    (gs ("/tmp/mcaddon-extract0/resource/a.mcpack"))).1
    [(gs ("manifest.json"), false, Bytes.malformed)] rfl
  simpa [firstManifestEntry, entryName, entryData, jsonUnmarshalManifest] using h

/-! ## C1: the Restoration Reconciler does not make the restored UUID
appear in the Installed-Pack Index, and a second run is not a no-op -/

/-- The C1 scenario: a valid flat pack (UUID `U`, `manifest.json` at
the root of the zip — the only layout whose UUID
`extractPackUUIDFromMcpack` can read) archived under the behavior
archive root, with empty installation directories. -/
def fsC1 : Fs :=
  { dirs := [gs ("/"), gs ("/data"), gs ("/tmp"),
             gs ("/data/behavior_packs"), gs ("/data/resource_packs"),
             gs ("/data/pack_archives"), gs ("/data/pack_archives/behavior"),
             gs ("/data/pack_archives/resource"),
             gs ("/data/pack_archives/behavior/U")],
    files := [(gs ("/data/pack_archives/behavior/U/a.mcpack"),
               Bytes.zipData [(gs ("manifest.json"), false,
                 Bytes.manifestDoc (gs ("U")) [1, 0, 0])])],
    tmpCounter := 0 }

/-- C1 fails on the code: after running the Restoration Reconciler on
an installation directory lacking `U`, the pack's contents are copied
flat into the installation root (the restored `manifest.json` sits at
`/data/behavior_packs/manifest.json`, not in a per-pack subdirectory),
so `U` is absent from the Installed-Pack Index afterward; and the
second run performs another extraction (its temp-directory counter
advances) because `findPackByUUID` — which inspects only
subdirectories — never finds `U` installed.  This contradicts both
conjuncts of the claim. -/
theorem c1_restore_flattens_and_repeats :
    getInstalledAddons (restoreDeletedPacks fsC1) behaviorPacksDir =
      .ok ([] : List (GoStr × GoStr)) ∧
    (lookupFile (restoreDeletedPacks fsC1)
      (gs ("/data/behavior_packs/manifest.json"))).isSome = true ∧
    (restoreDeletedPacks (restoreDeletedPacks fsC1)).tmpCounter =
      (restoreDeletedPacks fsC1).tmpCounter + 1 :=
  ⟨rfl, rfl, rfl⟩

/-! ## C4: the Installed-Pack Index scan -/

/-- The per-subdirectory manifest read of `getInstalledAddons`: the
UUID of subdirectory `n` of `packDir`, or `none` when its
`manifest.json` is missing or unparseable. -/
def scanUUID (fs : Fs) (packDir n : GoStr) : Option GoStr :=
  match readFile fs (join3 packDir n (gs ("manifest.json"))) with
  | .error _ => none
  | .ok data => (jsonUnmarshalManifest data).map (fun m => m.header.uuid)

theorem getInstalledAddons_eq_fold (fs : Fs) (packDir : GoStr) (ents : List DirEnt)
    (h : readDir fs packDir = .ok ents) :
    getInstalledAddons fs packDir = .ok (ents.foldl (installedStep fs packDir) []) := by
  simp [getInstalledAddons, h]

theorem installedStep_scan_none (fs : Fs) (packDir : GoStr) (m : List (GoStr × GoStr))
    (ent : DirEnt) (hdir : ent.isDir = true) (h : scanUUID fs packDir ent.name = none) :
    installedStep fs packDir m ent = m := by
  cases hr : readFile fs (join3 packDir ent.name (gs ("manifest.json"))) with
  | error e => simp [installedStep, hr, hdir]
  | ok data =>
    simp only [scanUUID, hr] at h
    cases hm : jsonUnmarshalManifest data with
    | none => simp [installedStep, hr, hm, hdir]
    | some manifest => rw [hm] at h; simp at h

theorem installedStep_scan_some (fs : Fs) (packDir : GoStr) (m : List (GoStr × GoStr))
    (ent : DirEnt) (u : GoStr) (hdir : ent.isDir = true)
    (h : scanUUID fs packDir ent.name = some u) :
    installedStep fs packDir m ent = mapInsert u (join2 packDir ent.name) m := by
  cases hr : readFile fs (join3 packDir ent.name (gs ("manifest.json"))) with
  | error e => simp only [scanUUID, hr] at h; exact absurd h (by simp)
  | ok data =>
    simp only [scanUUID, hr] at h
    cases hm : jsonUnmarshalManifest data with
    | none => rw [hm] at h; simp at h
    | some manifest =>
      rw [hm] at h
      simp only [Option.map_some'] at h
      obtain rfl : manifest.header.uuid = u := Option.some.inj h
      simp [installedStep, hr, hm, hdir]

/-- Helper: `getLast?` of a cons. -/
theorem getLast?_cons_eq {α : Type} (a : α) (l : List α) :
    (a :: l).getLast? = match l.getLast? with
      | none => some a
      | some b => some b := by
  cases l with
  | nil => rfl
  | cons b t =>
    rw [List.getLast?_cons_cons]
    cases hl : (b :: t).getLast? with
    | none => simp at hl
    | some c => rfl

/-- The lookup of the Installed-Pack Index fold: the last qualifying
subdirectory in iteration order wins. -/
theorem installedFold_lookup (fs : Fs) (packDir : GoStr) (ents : List DirEnt)
    (m0 : List (GoStr × GoStr)) (u : GoStr) :
    mapLookup u (ents.foldl (installedStep fs packDir) m0) =
      match (ents.filter (fun e => e.isDir && scanUUID fs packDir e.name == some u)).getLast? with
      | some e => some (join2 packDir e.name)
      | none => mapLookup u m0 := by
  induction ents generalizing m0 with
  | nil => simp
  | cons e rest ih =>
    rw [List.foldl_cons, ih]
    by_cases hdir : e.isDir = true
    · cases hs : scanUUID fs packDir e.name with
      | none =>
        rw [installedStep_scan_none fs packDir m0 e hdir hs]
        have : (e.isDir && scanUUID fs packDir e.name == some u) = false := by
          simp [hdir, hs]
        simp [List.filter_cons, this]
      | some u2 =>
        rw [installedStep_scan_some fs packDir m0 e u2 hdir hs]
        by_cases hu : u2 = u
        · subst hu
          have hpred : (e.isDir && scanUUID fs packDir e.name == some u2) = true := by
            simp [hdir, hs]
          rw [List.filter_cons, if_pos (by simpa using hpred), getLast?_cons_eq]
          cases hl : (rest.filter
              (fun e => e.isDir && scanUUID fs packDir e.name == some u2)).getLast? with
          | none => simp [mapLookup_mapInsert_self]
          | some e2 => simp
        · have hpred : (e.isDir && scanUUID fs packDir e.name == some u) = false := by
            simp [hdir, hs, hu]
          rw [List.filter_cons, if_neg (by simpa using hpred)]
          rw [mapLookup_mapInsert_ne u u2 _ m0 (fun hh => hu hh.symm)]
    · have hdir2 : e.isDir = false := by
        cases h2 : e.isDir
        · rfl
        · exact absurd h2 hdir
      have : installedStep fs packDir m0 e = m0 := by simp [installedStep, hdir2]
      rw [this]
      have hpred : (e.isDir && scanUUID fs packDir e.name == some u) = false := by
        simp [hdir2]
      rw [List.filter_cons, if_neg (by simpa using hpred)]

/-- C4: for every installation directory, `getInstalledAddons`
succeeds (missing or unparseable descriptors are excluded without
failing the scan), its mapping holds a key `u` exactly when some
subdirectory's `manifest.json` exists and parses to `u`, and when two
subdirectories yield the same UUID the one later in iteration order is
the one mapped. -/
theorem c4_installed_index (fs : Fs) (packDir : GoStr) (ents : List DirEnt)
    (h : readDir fs packDir = .ok ents) :
    ∃ m, getInstalledAddons fs packDir = .ok m ∧
      (∀ u, mapLookup u m =
        match (ents.filter
            (fun e => e.isDir && scanUUID fs packDir e.name == some u)).getLast? with
        | some e => some (join2 packDir e.name)
        | none => none) ∧
      (∀ u, (mapLookup u m).isSome = true ↔
        ∃ e ∈ ents, e.isDir = true ∧ scanUUID fs packDir e.name = some u) := by
  refine ⟨ents.foldl (installedStep fs packDir) [], getInstalledAddons_eq_fold fs packDir ents h,
    ?_, ?_⟩
  · intro u
    rw [installedFold_lookup]
    cases (ents.filter (fun e => e.isDir && scanUUID fs packDir e.name == some u)).getLast? <;>
      simp [mapLookup]
  · intro u
    rw [installedFold_lookup]
    cases hl : (ents.filter
        (fun e => e.isDir && scanUUID fs packDir e.name == some u)).getLast? with
    | none =>
      rw [List.getLast?_eq_none_iff, List.filter_eq_nil_iff] at hl
      simp only [mapLookup, Option.isSome_none]
      constructor
      · intro hfalse
        exact absurd hfalse (by simp)
      · rintro ⟨e, hmem, hdir, hscan⟩
        have hpred : (e.isDir && scanUUID fs packDir e.name == some u) = true := by
          simp [hdir, hscan]
        exact absurd hpred (by simpa using hl e hmem)
    | some e2 =>
      have hmem : e2 ∈ ents.filter
          (fun e => e.isDir && scanUUID fs packDir e.name == some u) := by
        obtain ⟨hne, heq⟩ := List.mem_getLast?_eq_getLast hl
        rw [heq]
        exact List.getLast_mem hne
      rw [List.mem_filter] at hmem
      have h2 := hmem.2
      simp only [Bool.and_eq_true, beq_iff_eq] at h2
      simp only [Option.isSome_some, true_iff]
      exact ⟨e2, hmem.1, h2.1, h2.2⟩

/-- The C4 witness scenario: subdirectories `a` (UUID `U`), `b`
(unparseable manifest), `c` (UUID `U` again) and `d` (no manifest). -/
def fsC4 : Fs :=
  { dirs := [gs ("/"), gs ("/p"), gs ("/p/a"), gs ("/p/b"), gs ("/p/c"), gs ("/p/d")],
    files := [(gs ("/p/a/manifest.json"), Bytes.manifestDoc (gs ("U")) [1]),
              (gs ("/p/b/manifest.json"), Bytes.malformed),
              (gs ("/p/c/manifest.json"), Bytes.manifestDoc (gs ("U")) [2])],
    tmpCounter := 0 }

theorem c4_installed_index_witness :
    ∃ m, getInstalledAddons fsC4 (gs ("/p")) = .ok m ∧
      mapLookup (gs ("U")) m = some (gs ("/p/c")) := by
  obtain ⟨m, hm, hlook, _⟩ := c4_installed_index fsC4 (gs ("/p"))
    [⟨gs ("a"), true⟩, ⟨gs ("b"), true⟩, ⟨gs ("c"), true⟩, ⟨gs ("d"), true⟩] rfl
  refine ⟨m, hm, ?_⟩
  rw [hlook (gs ("U"))]
  rfl

/-! ## C5: active-addon resolution -/

theorem foldl_append_filter {α : Type} (p : α → Bool) (l acc : List α) :
    l.foldl (fun acc a => if p a then acc ++ [a] else acc) acc = acc ++ l.filter p := by
  induction l generalizing acc with
  | nil => simp
  | cons a rest ih =>
    by_cases hp : p a
    · simp [hp, ih]
    · simp [hp, ih]

/-- C5: `getActiveAddons` returns exactly the sublist of declarations
whose `pack_id` is a key of the Installed-Pack Index, in input order,
dropping the rest without error; and the behavior-pack declaration
file is chosen by checking the American spelling first, falling back
to the British spelling, failing with `NotFound` only when neither
exists. -/
theorem c5_active_addons (fs : Fs) (jsonPath packDir worldFolder : GoStr)
    (addons : List ActiveAddon) (installed : List (GoStr × GoStr))
    (hj : readFile fs jsonPath = .ok (Bytes.addonListDoc addons))
    (hi : getInstalledAddons fs packDir = .ok installed) :
    getActiveAddons fs jsonPath packDir =
      .ok (addons.filter (fun a => (mapLookup a.1 installed).isSome)) ∧
    (statExists fs (join2 worldFolder (gs ("world_behavior_packs.json"))) = true →
      chooseBehaviorJSON fs worldFolder =
        .ok (join2 worldFolder (gs ("world_behavior_packs.json")))) ∧
    (statExists fs (join2 worldFolder (gs ("world_behavior_packs.json"))) = false →
      statExists fs (join2 worldFolder (gs ("world_behaviour_packs.json"))) = true →
      chooseBehaviorJSON fs worldFolder =
        .ok (join2 worldFolder (gs ("world_behaviour_packs.json")))) ∧
    (statExists fs (join2 worldFolder (gs ("world_behavior_packs.json"))) = false →
      statExists fs (join2 worldFolder (gs ("world_behaviour_packs.json"))) = false →
      chooseBehaviorJSON fs worldFolder = .error .notFound) := by
  refine ⟨?_, ?_, ?_, ?_⟩
  · rw [getActiveAddons, hj]
    simp only [jsonUnmarshalAddons, hi]
    rw [foldl_append_filter]
    simp
  · intro h1
    simp [chooseBehaviorJSON, h1]
  · intro h1 h2
    simp [chooseBehaviorJSON, h1, h2]
  · intro h1 h2
    simp [chooseBehaviorJSON, h1, h2]

/-- The C5 witness scenario: only the British spelling of the
behavior declaration file exists, declaring addons `A` (installed) and
`B` (not installed). -/
def fsC5 : Fs :=
  { dirs := [gs ("/"), gs ("/data"), gs ("/data/worlds"), gs ("/data/worlds/W"),
             gs ("/data/behavior_packs"), gs ("/data/behavior_packs/P1")],
    files := [(gs ("/data/worlds/W/world_behaviour_packs.json"),
               Bytes.addonListDoc [(gs ("A"), [1]), (gs ("B"), [1])]),
              (gs ("/data/behavior_packs/P1/manifest.json"),
               Bytes.manifestDoc (gs ("A")) [1])],
    tmpCounter := 0 }

theorem c5_active_addons_witness :
    getActiveAddons fsC5 (gs ("/data/worlds/W/world_behaviour_packs.json"))
      behaviorPacksDir = .ok [(gs ("A"), [1])] ∧
    chooseBehaviorJSON fsC5 (gs ("/data/worlds/W")) =
      .ok (join2 (gs ("/data/worlds/W")) (gs ("world_behaviour_packs.json"))) := by
  have h := c5_active_addons fsC5 (gs ("/data/worlds/W/world_behaviour_packs.json"))
    behaviorPacksDir (gs ("/data/worlds/W"))
    [(gs ("A"), [1]), (gs ("B"), [1])]
    [(gs ("A"), gs ("/data/behavior_packs/P1"))] rfl rfl
  refine ⟨?_, h.2.2.1 (by decide) (by decide)⟩
  rw [h.1]
  rfl

/-! ## C2: the Archive Extractor never writes outside the target -/

theorem mkdirAll_files_eq (fs : Fs) (p : GoStr) (fs2 : Fs)
    (h : mkdirAll fs p = some fs2) : fs2.files = fs.files := by
  unfold mkdirAll at h
  split at h
  · simp at h
  · cases Option.some.inj h
    rfl

theorem createFile_some (fs : Fs) (p : GoStr) (b : Bytes) (fs2 : Fs)
    (h : createFile fs p b = some fs2) :
    fs2 = writeFileRaw fs p b ∧
    fs.dirs.contains (dirOf p) = true ∧ fs.dirs.contains p = false := by
  unfold createFile at h
  split at h
  · next hcond =>
    have hc := hcond
    simp only [Bool.and_eq_true, Bool.not_eq_true'] at hc
    exact ⟨(Option.some.inj h).symm, hc.1, hc.2⟩
  · simp at h

/-- The single-entry characterisation of the extraction loop: each
step appends at most one written path, every appended path carries the
zip-slip guard, and file contents outside the guard region are
untouched. -/
theorem extractEntryStep_cases (targetDir : GoStr) (fs : Fs) (w : List GoStr)
    (e : GoStr × Bool × Bytes) :
    ∃ fs2 wnew, extractEntryStep targetDir (fs, w) e = (fs2, w ++ wnew) ∧
      (∀ p ∈ wnew, (clean targetDir ++ gs ("/")).isPrefixOf p = true) ∧
      (∀ q, (clean targetDir ++ gs ("/")).isPrefixOf q = false →
        lookupFile fs2 q = lookupFile fs q) := by
  by_cases hg : (clean targetDir ++ gs ("/")).isPrefixOf (join2 targetDir (entryName e)) = true
  · by_cases hd : entryIsDir e = true
    · cases hmk : mkdirAll fs (join2 targetDir (entryName e)) with
      | none =>
        refine ⟨fs, [], ?_, by simp, fun q _ => rfl⟩
        simp [extractEntryStep, hg, hd, hmk]
      | some fs2 =>
        refine ⟨fs2, [join2 targetDir (entryName e)], ?_, ?_, ?_⟩
        · simp [extractEntryStep, hg, hd, hmk]
        · intro p hp
          rw [List.mem_singleton] at hp
          subst hp
          exact hg
        · intro q _
          simp [lookupFile, mkdirAll_files_eq fs _ fs2 hmk]
    · cases hmk : mkdirAll fs (dirOf (join2 targetDir (entryName e))) with
      | none =>
        refine ⟨fs, [], ?_, by simp, fun q _ => rfl⟩
        simp [extractEntryStep, hg, hd, hmk]
      | some fs2 =>
        cases hcf : createFile fs2 (join2 targetDir (entryName e)) (entryData e) with
        | none =>
          refine ⟨fs2, [], ?_, by simp, ?_⟩
          · simp [extractEntryStep, hg, hd, hmk, hcf]
          · intro q _
            simp [lookupFile, mkdirAll_files_eq fs _ fs2 hmk]
        | some fs3 =>
          refine ⟨fs3, [join2 targetDir (entryName e)], ?_, ?_, ?_⟩
          · simp [extractEntryStep, hg, hd, hmk, hcf]
          · intro p hp
            rw [List.mem_singleton] at hp
            subst hp
            exact hg
          · intro q hq
            obtain ⟨hw, _, _⟩ := createFile_some fs2 _ _ fs3 hcf
            subst hw
            have hqne : q ≠ join2 targetDir (entryName e) := by
              intro hcontra
              rw [hcontra, hg] at hq
              exact absurd hq (by simp)
            show mapLookup q (mapInsert (join2 targetDir (entryName e)) (entryData e) fs2.files)
              = lookupFile fs q
            rw [mapLookup_mapInsert_ne _ _ _ _ hqne]
            simpa [lookupFile] using
              congrArg (mapLookup q) (mkdirAll_files_eq fs _ fs2 hmk)
  · refine ⟨fs, [], ?_, by simp, fun q _ => rfl⟩
    simp [extractEntryStep, hg]

/-- The fold invariant of the extraction loop. -/
theorem extractFold_inv (targetDir : GoStr) (entries : List (GoStr × Bool × Bytes)) :
    ∀ (fs : Fs) (w : List GoStr),
      (∀ p ∈ (entries.foldl (extractEntryStep targetDir) (fs, w)).2,
        p ∈ w ∨ (clean targetDir ++ gs ("/")).isPrefixOf p = true) ∧
      (∀ q, (clean targetDir ++ gs ("/")).isPrefixOf q = false →
        lookupFile (entries.foldl (extractEntryStep targetDir) (fs, w)).1 q =
          lookupFile fs q) := by
  induction entries with
  | nil =>
    intro fs w
    refine ⟨?_, fun q _ => rfl⟩
    intro p hp
    exact Or.inl (by simpa using hp)
  | cons e rest ih =>
    intro fs w
    obtain ⟨fs2, wnew, hstep, hwnew, hfiles⟩ := extractEntryStep_cases targetDir fs w e
    rw [List.foldl_cons, hstep]
    obtain ⟨ih1, ih2⟩ := ih fs2 (w ++ wnew)
    constructor
    · intro p hp
      rcases ih1 p hp with hmem | hpref
      · rcases List.mem_append.1 hmem with hmem2 | hmem2
        · exact Or.inl hmem2
        · exact Or.inr (hwnew p hmem2)
      · exact Or.inr hpref
    · intro q hq
      rw [ih2 q hq, hfiles q hq]

/-- C2: for every zip archive and every target directory, the
extraction loop shared by `extractMcpackToDir` and the composite
extraction of `uploadMcAddonHandler` (a) only materialises entries
whose resolved path `filepath.Join(targetDir, name)` stays under the
cleaned target directory, (b) leaves the contents of every file
outside that region exactly as they were, and (c) skips offending
entries and continues, never aborting: whenever the archive opens,
`extractMcpackToDir` processes the full entry list and reports
success. -/
theorem c2_extract_no_traversal (fs : Fs) (targetDir : GoStr)
    (entries : List (GoStr × Bool × Bytes)) :
    (∀ p ∈ (extractEntries fs targetDir entries).2,
      (clean targetDir ++ gs ("/")).isPrefixOf p = true) ∧
    (∀ q, (clean targetDir ++ gs ("/")).isPrefixOf q = false →
      lookupFile (extractEntries fs targetDir entries).1 q = lookupFile fs q) ∧
    (∀ mcpackPath, readFile fs mcpackPath = .ok (Bytes.zipData entries) →
      (extractMcpackToDir fs mcpackPath targetDir).2 = .ok () ∧
      (extractMcpackToDir fs mcpackPath targetDir).1 =
        (extractEntries fs targetDir entries).1) := by
  obtain ⟨h1, h2⟩ := extractFold_inv targetDir entries fs []
  refine ⟨?_, h2, ?_⟩
  · intro p hp
    rcases h1 p hp with hmem | hpref
    · exact absurd hmem (by simp)
    · exact hpref
  · intro mcpackPath hread
    constructor <;> simp [extractMcpackToDir, hread]

/-- The C2 witness scenario: an archive carrying a path-traversal
entry and an honest entry, extracted into `/t`. -/
def entriesC2 : List (GoStr × Bool × Bytes) :=
  [(gs ("../../etc/passwd"), false, Bytes.malformed),
   (gs ("ok.txt"), false, Bytes.text (gs ("hello")))]

def fsC2 : Fs :=
  { dirs := [gs ("/"), gs ("/t"), gs ("/etc")],
    files := [(gs ("/etc/passwd"), Bytes.text (gs ("root"))),
              (gs ("/a.mcpack"), Bytes.zipData entriesC2)],
    tmpCounter := 0 }

theorem c2_extract_no_traversal_witness :
    ((gs ("/t/ok.txt")) ∈ (extractEntries fsC2 (gs ("/t")) entriesC2).2 ∧
      (clean (gs ("/t")) ++ gs ("/")).isPrefixOf (gs ("/t/ok.txt")) = true) ∧
    lookupFile (extractEntries fsC2 (gs ("/t")) entriesC2).1 (gs ("/etc/passwd")) =
      lookupFile fsC2 (gs ("/etc/passwd")) ∧
    (extractMcpackToDir fsC2 (gs ("/a.mcpack")) (gs ("/t"))).2 = .ok () := by
  refine ⟨⟨by decide, ?_⟩, ?_, ?_⟩
  · exact (c2_extract_no_traversal fsC2 (gs ("/t")) entriesC2).1 (gs ("/t/ok.txt")) (by decide)
  · exact (c2_extract_no_traversal fsC2 (gs ("/t")) entriesC2).2.1 (gs ("/etc/passwd"))
      (by decide)
  · exact ((c2_extract_no_traversal fsC2 (gs ("/t")) entriesC2).2.2 (gs ("/a.mcpack")) rfl).1

/-! ## C8: `saveMcpackToArchive` is idempotent per (UUID, filename) -/

theorem addDirs_mem (l : List GoStr) (ds : List GoStr) (q : GoStr) :
    q ∈ l.foldl (fun ds q => if ds.contains q then ds else ds ++ [q]) ds ↔
      q ∈ ds ∨ q ∈ l := by
  induction l generalizing ds with
  | nil => simp
  | cons a rest ih =>
    rw [List.foldl_cons]
    by_cases ha : ds.contains a = true
    · rw [if_pos ha, ih]
      have ha2 : a ∈ ds := by simpa using ha
      constructor
      · rintro (h | h)
        · exact Or.inl h
        · exact Or.inr (List.mem_cons_of_mem a h)
      · rintro (h | h)
        · exact Or.inl h
        · rcases List.mem_cons.1 h with rfl | h2
          · exact Or.inl ha2
          · exact Or.inr h2
    · rw [if_neg ha, ih]
      rw [List.mem_append, List.mem_singleton, List.mem_cons]
      tauto

theorem addDirs_of_all_present (l : List GoStr) (ds : List GoStr)
    (h : ∀ a ∈ l, ds.contains a = true) :
    l.foldl (fun ds q => if ds.contains q then ds else ds ++ [q]) ds = ds := by
  induction l with
  | nil => rfl
  | cons a rest ih =>
    rw [List.foldl_cons, if_pos (h a (by simp))]
    exact ih (fun a2 ha2 => h a2 (by simp [ha2]))

theorem mkdirAll_some (fs : Fs) (p : GoStr) (fs2 : Fs) (h : mkdirAll fs p = some fs2) :
    fs2.files = fs.files ∧ fs2.tmpCounter = fs.tmpCounter ∧
    (∀ q ∈ selfAndAncestors p, (lookupFile fs q).isSome = false) ∧
    (∀ q ∈ selfAndAncestors p, fs2.dirs.contains q = true) ∧
    (∀ q, fs.dirs.contains q = true → fs2.dirs.contains q = true) := by
  unfold mkdirAll at h
  split at h
  · simp at h
  · next hany =>
    cases Option.some.inj h
    have hany2 : ((selfAndAncestors p).any fun q => (lookupFile fs q).isSome) = false := by
      cases hx : (selfAndAncestors p).any fun q => (lookupFile fs q).isSome
      · rfl
      · exact absurd hx hany
    rw [List.any_eq_false] at hany2
    refine ⟨rfl, rfl, ?_, ?_, ?_⟩
    · intro q hq
      have := hany2 q hq
      simpa using this
    · intro q hq
      have : q ∈ (selfAndAncestors p).foldl
          (fun ds q => if ds.contains q then ds else ds ++ [q]) fs.dirs :=
        (addDirs_mem _ _ _).2 (Or.inr hq)
      simpa using this
    · intro q hq
      have : q ∈ (selfAndAncestors p).foldl
          (fun ds q => if ds.contains q then ds else ds ++ [q]) fs.dirs :=
        (addDirs_mem _ _ _).2 (Or.inl (by simpa using hq))
      simpa using this

theorem mkdirAll_of_present (fs : Fs) (p : GoStr)
    (hdirs : ∀ q ∈ selfAndAncestors p, fs.dirs.contains q = true)
    (hfiles : ∀ q ∈ selfAndAncestors p, (lookupFile fs q).isSome = false) :
    mkdirAll fs p = some fs := by
  unfold mkdirAll
  have hany : ((selfAndAncestors p).any fun q => (lookupFile fs q).isSome) = false := by
    rw [List.any_eq_false]
    intro q hq
    simp [hfiles q hq]
  rw [hany]
  simp only [Bool.false_eq_true, if_false]
  rw [addDirs_of_all_present _ _ hdirs]

theorem writeFileRaw_self (fs : Fs) (p : GoStr) (b : Bytes)
    (h : mapLookup p fs.files = some b) : writeFileRaw fs p b = fs := by
  unfold writeFileRaw
  rw [mapInsert_of_lookup_eq p b fs.files h]

theorem saveUUID_congr (fs1 fs : Fs) (p : GoStr)
    (h : lookupFile fs1 p = lookupFile fs p) : saveUUID fs1 p = saveUUID fs p := by
  unfold saveUUID extractPackUUIDFromMcpack readFile
  rw [h]

theorem savePackDir_congr (fs1 fs : Fs) (p packType : GoStr)
    (h : lookupFile fs1 p = lookupFile fs p) :
    savePackDir fs1 p packType = savePackDir fs p packType := by
  unfold savePackDir
  rw [saveUUID_congr fs1 fs p h]

/-- C8: re-running `saveMcpackToArchive` on the same source pack after
a successful save stores into the same per-UUID subdirectory,
overwrites the previously stored archive file rather than versioning
it, and leaves the filesystem exactly as after the first save — the
archive holds at most one stored payload per (UUID, filename).  (The
hypothesis `mcpackPath ≠ ap` rules out the degenerate self-copy where
Go's truncate-then-copy would destroy the source.) -/
theorem c8_save_idempotent (fs fs1 : Fs) (mcpackPath packType ap pd : GoStr)
    (h1 : saveMcpackToArchive fs mcpackPath packType = (fs1, .ok (ap, pd)))
    (hne : mcpackPath ≠ ap) :
    saveMcpackToArchive fs1 mcpackPath packType = (fs1, .ok (ap, pd)) := by
  unfold saveMcpackToArchive at h1
  split at h1
  · exact absurd (congrArg Prod.snd h1) (by simp)
  · rename_i fsA hmk
    split at h1
    · exact absurd (congrArg Prod.snd h1) (by simp)
    · rename_i b hrf
      split at h1
      · exact absurd (congrArg Prod.snd h1) (by simp)
      · rename_i fsB hcf
        have hfsB : fsB = fs1 := congrArg Prod.fst h1
        have hpair := Except.ok.inj (congrArg Prod.snd h1)
        have hap : saveArchivePath fs mcpackPath packType = ap := congrArg Prod.fst hpair
        have hpd : savePackDir fs mcpackPath packType = pd := congrArg Prod.snd hpair
        subst hap
        subst hpd
        obtain ⟨hAfiles, _, hnof, hancd, _⟩ := mkdirAll_some fs _ fsA hmk
        obtain ⟨hBw, hcdir, hcnot⟩ := createFile_some fsA _ b fsB hcf
        subst hfsB
        subst hBw
        -- facts about the state after the first save
        have hd1 : (writeFileRaw fsA (saveArchivePath fs mcpackPath packType) b).dirs
            = fsA.dirs := rfl
        have hlook : lookupFile (writeFileRaw fsA (saveArchivePath fs mcpackPath packType) b)
            mcpackPath = lookupFile fs mcpackPath := by
          show mapLookup mcpackPath
            (mapInsert (saveArchivePath fs mcpackPath packType) b fsA.files) = _
          rw [mapLookup_mapInsert_ne _ _ _ _ hne]
          rw [show fsA.files = fs.files from hAfiles]
          rfl
        have hpd2 : savePackDir (writeFileRaw fsA (saveArchivePath fs mcpackPath packType) b)
            mcpackPath packType = savePackDir fs mcpackPath packType :=
          savePackDir_congr _ fs mcpackPath packType hlook
        have hap2 : saveArchivePath (writeFileRaw fsA (saveArchivePath fs mcpackPath packType) b)
            mcpackPath packType = saveArchivePath fs mcpackPath packType := by
          show join2 (savePackDir (writeFileRaw fsA (saveArchivePath fs mcpackPath packType) b)
              mcpackPath packType) (baseOf mcpackPath) =
            join2 (savePackDir fs mcpackPath packType) (baseOf mcpackPath)
          rw [hpd2]
        -- run 2
        have hmk2 : mkdirAll (writeFileRaw fsA (saveArchivePath fs mcpackPath packType) b)
            (savePackDir fs mcpackPath packType) =
            some (writeFileRaw fsA (saveArchivePath fs mcpackPath packType) b) := by
          apply mkdirAll_of_present
          · intro q hq
            rw [hd1]
            exact hancd q hq
          · intro q hq
            have hqne : q ≠ saveArchivePath fs mcpackPath packType := by
              intro hcontra
              have h5 := hancd q hq
              rw [hcontra, hcnot] at h5
              exact Bool.noConfusion h5
            show (mapLookup q
              (mapInsert (saveArchivePath fs mcpackPath packType) b fsA.files)).isSome = false
            rw [mapLookup_mapInsert_ne _ _ _ _ hqne,
              show fsA.files = fs.files from hAfiles]
            exact hnof q hq
        have h4 : lookupFile fsA mcpackPath = lookupFile fs mcpackPath := by
          show mapLookup mcpackPath fsA.files = mapLookup mcpackPath fs.files
          rw [hAfiles]
        have hfsread : lookupFile fs mcpackPath = some b := by
          cases h5 : lookupFile fs mcpackPath with
          | none =>
            have h6 : readFile fsA mcpackPath = .error .notFound := by
              unfold readFile
              rw [h4, h5]
            rw [h6] at hrf
            exact absurd hrf (by simp)
          | some b2 =>
            have h6 : readFile fsA mcpackPath = .ok b2 := by
              unfold readFile
              rw [h4, h5]
            rw [h6] at hrf
            exact congrArg some (Except.ok.inj hrf)
        have hrd2 : readFile (writeFileRaw fsA (saveArchivePath fs mcpackPath packType) b)
            mcpackPath = .ok b := by
          unfold readFile
          rw [hlook, hfsread]
        have hcf2 : createFile (writeFileRaw fsA (saveArchivePath fs mcpackPath packType) b)
            (saveArchivePath fs mcpackPath packType) b =
            some (writeFileRaw fsA (saveArchivePath fs mcpackPath packType) b) := by
          unfold createFile
          rw [hd1]
          rw [if_pos (by rw [hcdir, hcnot]; rfl)]
          congr 1
          apply writeFileRaw_self
          show mapLookup _ (mapInsert (saveArchivePath fs mcpackPath packType) b fsA.files)
            = some b
          exact mapLookup_mapInsert_self _ _ _
        simp only [saveMcpackToArchive, hpd2, hmk2, hrd2, hap2, hcf2]

/-- The C8 witness scenario: one uploadable flat pack with UUID `U`. -/
def fsC8 : Fs :=
  { dirs := [gs ("/"), gs ("/up")],
    files := [(gs ("/up/a.mcpack"),
      Bytes.zipData [(gs ("manifest.json"), false, Bytes.manifestDoc (gs ("U")) [1])])],
    tmpCounter := 0 }

theorem c8_save_idempotent_witness :
    saveMcpackToArchive (saveMcpackToArchive fsC8 (gs ("/up/a.mcpack")) (gs ("behavior"))).1
      (gs ("/up/a.mcpack")) (gs ("behavior")) =
    ((saveMcpackToArchive fsC8 (gs ("/up/a.mcpack")) (gs ("behavior"))).1,
      .ok (gs ("/data/pack_archives/behavior/U/a.mcpack"),
           gs ("/data/pack_archives/behavior/U"))) :=
  c8_save_idempotent fsC8 _ (gs ("/up/a.mcpack")) (gs ("behavior"))
    (gs ("/data/pack_archives/behavior/U/a.mcpack"))
    (gs ("/data/pack_archives/behavior/U")) rfl (by decide)

/-! ## C9: `getWorldFolder` -/

theorem splitChar_ne_nil (sep : Char) (s : GoStr) : splitChar sep s ≠ [] := by
  cases s with
  | nil => simp [splitChar]
  | cons c rest =>
    by_cases hc : c = sep
    · simp [splitChar, hc]
    · simp only [splitChar, hc, if_false]
      cases h : splitChar sep rest with
      | nil => simp
      | cons g t => simp

theorem splitChar_append_cons (sep : Char) (a b : GoStr) (h : sep ∉ a) :
    splitChar sep (a ++ sep :: b) = a :: splitChar sep b := by
  induction a with
  | nil => simp [splitChar]
  | cons c a2 ih =>
    have hc : ¬c = sep := fun hx => h (hx ▸ List.mem_cons_self c a2)
    have h2 : sep ∉ a2 := fun hx => h (List.mem_cons_of_mem c hx)
    rw [List.cons_append]
    simp only [splitChar, hc, if_false, ih h2]

theorem intercalateChar_splitChar (sep : Char) (s : GoStr) :
    intercalateChar sep (splitChar sep s) = s := by
  induction s with
  | nil => rfl
  | cons c rest ih =>
    cases h : splitChar sep rest with
    | nil => exact absurd h (splitChar_ne_nil sep rest)
    | cons g t =>
      by_cases hc : c = sep
      · have h1 : splitChar sep (c :: rest) = [] :: g :: t := by
          simp [splitChar, hc, h]
        rw [h1]
        show [] ++ sep :: intercalateChar sep (g :: t) = c :: rest
        rw [List.nil_append, ← h, ih, hc]
      · have h1 : splitChar sep (c :: rest) = (c :: g) :: t := by
          simp [splitChar, hc, h]
        rw [h1]
        cases t with
        | nil =>
          have h2 : g = rest := by
            rw [h] at ih
            simpa [intercalateChar] using ih
          simp [intercalateChar, h2]
        | cons t0 ts =>
          rw [h] at ih
          show (c :: g) ++ sep :: intercalateChar sep (t0 :: ts) = c :: rest
          rw [List.cons_append]
          congr 1

theorem splitN2_of_first (sep : Char) (a b : GoStr) (h : sep ∉ a) :
    splitN2 sep (a ++ sep :: b) = [a, b] := by
  unfold splitN2
  rw [splitChar_append_cons sep a b h]
  cases hb : splitChar sep b with
  | nil => exact absurd hb (splitChar_ne_nil sep b)
  | cons g t =>
    show [a, intercalateChar sep (g :: t)] = [a, b]
    rw [← hb, intercalateChar_splitChar]

/-- The predicate picking out the first `level-name=` line of the
scan (blank and comment lines can never satisfy it). -/
def isLevelNameLine (l : GoStr) : Bool :=
  (gs ("level-name=")).isPrefixOf (trimSpace l)

theorem levelNameFromLines_skip (line : GoStr) (rest : List GoStr)
    (h : isLevelNameLine line = false) :
    levelNameFromLines (line :: rest) = levelNameFromLines rest := by
  unfold isLevelNameLine at h
  by_cases h1 : trimSpace line = []
  · simp [levelNameFromLines, h1]
  · by_cases h2 : (gs ("#")).isPrefixOf (trimSpace line) = true
    · simp [levelNameFromLines, h1, h2]
    · simp [levelNameFromLines, h1, h2, h]

theorem levelNameFromLines_hit (line : GoStr) (rest : List GoStr) (v : GoStr)
    (h : trimSpace line = gs ("level-name=") ++ v) :
    levelNameFromLines (line :: rest) =
      if trimSpace v = [] then .error .emptyLevelName
      else .ok (join2 (gs ("/data/worlds")) (trimSpace v)) := by
  have hgsne : gs ("level-name=") ≠ [] := by decide
  have hne : ¬trimSpace line = [] := by
    rw [h]
    intro hx
    exact hgsne (List.append_eq_nil.mp hx).1
  have hhash : (gs ("#")).isPrefixOf (trimSpace line) = false := by
    rw [h]
    show List.isPrefixOf ('#' :: []) ('l' :: (gs ("evel-name=") ++ v)) = false
    have hb : ('#' == 'l') = false := by decide
    simp [List.isPrefixOf, hb]
  have hlvl : (gs ("level-name=")).isPrefixOf (trimSpace line) = true := by
    rw [h]
    exact (List.isPrefixOf_iff_prefix).mpr ⟨v, rfl⟩
  have hdecomp : trimSpace line = gs ("level-name") ++ '=' :: v := by
    rw [h]
    rfl
  have hsplit : splitN2 '=' (trimSpace line) = [gs ("level-name"), v] := by
    rw [hdecomp]
    exact splitN2_of_first '=' (gs ("level-name")) v (by decide)
  simp [levelNameFromLines, hne, hhash, hlvl, hsplit]

/-- The scan of `getWorldFolder` characterised through the first
`level-name=` line of the file. -/
theorem levelNameFromLines_spec (lines : List GoStr) :
    (lines.find? isLevelNameLine = none →
      levelNameFromLines lines = .error .levelNameNotFound) ∧
    (∀ line v, lines.find? isLevelNameLine = some line →
      trimSpace line = gs ("level-name=") ++ v →
      levelNameFromLines lines =
        if trimSpace v = [] then .error .emptyLevelName
        else .ok (join2 (gs ("/data/worlds")) (trimSpace v))) := by
  induction lines with
  | nil =>
    refine ⟨fun _ => rfl, fun line v h _ => ?_⟩
    simp at h
  | cons l rest ih =>
    constructor
    · intro h
      cases hp : isLevelNameLine l with
      | true =>
        rw [List.find?_cons_of_pos _ hp] at h
        exact absurd h (by simp)
      | false =>
        rw [List.find?_cons_of_neg _ (by simp [hp])] at h
        rw [levelNameFromLines_skip l rest hp]
        exact ih.1 h
    · intro line v hfind htrim
      cases hp : isLevelNameLine l with
      | true =>
        rw [List.find?_cons_of_pos _ hp] at hfind
        obtain rfl := Option.some.inj hfind
        exact levelNameFromLines_hit l rest v htrim
      | false =>
        rw [List.find?_cons_of_neg _ (by simp [hp])] at hfind
        rw [levelNameFromLines_skip l rest hp]
        exact ih.2 line v hfind htrim

/-- C9: for every `server.properties` content containing a line whose
trimmed form is `level-name=<name>` (surrounding whitespace allowed),
`getWorldFolder` returns the worlds root joined with the trimmed
name, skipping blank lines and `#` comment lines; it errors when the
trimmed value is empty and when no `level-name` line exists. -/
theorem c9_getWorldFolder (fs : Fs) (content : GoStr)
    (hread : readFile fs serverPropsPath = .ok (Bytes.text content)) :
    ((splitChar '\n' content).find? isLevelNameLine = none →
      getWorldFolder fs = .error .levelNameNotFound) ∧
    (∀ line v, (splitChar '\n' content).find? isLevelNameLine = some line →
      trimSpace line = gs ("level-name=") ++ v →
      (trimSpace v ≠ [] →
        getWorldFolder fs = .ok (join2 (gs ("/data/worlds")) (trimSpace v))) ∧
      (trimSpace v = [] → getWorldFolder fs = .error .emptyLevelName)) := by
  have hgw : getWorldFolder fs = levelNameFromLines (splitChar '\n' content) := by
    simp [getWorldFolder, hread, bytesAsText]
  constructor
  · intro h
    rw [hgw]
    exact (levelNameFromLines_spec _).1 h
  · intro line v hfind htrim
    have hres := (levelNameFromLines_spec _).2 line v hfind htrim
    constructor
    · intro hvne
      rw [hgw, hres, if_neg hvne]
    · intro hveq
      rw [hgw, hres, if_pos hveq]

/-- The C9 witness scenario: a properties file with a comment line, a
`level-name` line with surrounding whitespace, and a trailing line. -/
def fsC9 : Fs :=
  { dirs := [gs ("/"), gs ("/data")],
    files := [(serverPropsPath,
      Bytes.text (gs ("# note\n  level-name= MyWorld  \nfoo=bar")))],
    tmpCounter := 0 }

theorem c9_getWorldFolder_witness :
    getWorldFolder fsC9 = .ok (gs ("/data/worlds/MyWorld")) := by
  have h := (c9_getWorldFolder fsC9 (gs ("# note\n  level-name= MyWorld  \nfoo=bar")) rfl).2
    (gs ("  level-name= MyWorld  ")) (gs (" MyWorld")) (by decide) (by decide)
  rw [h.1 (by decide)]
  rfl

end Bedrock
